import Mathlib

/-!
Shallow embedding of the benchmarking script `paper/code/ewstools-tuto-1.py`
and proofs about its harness: the eight timing loops (source lines 23-69),
the per-call minimum reduction, the preprocessing phase (lines 7-18) and the
two output writes (lines 71-72).

Timestamps and Python floats are modelled as rationals; the external
ewstools/numpy library is modelled by its contract (a record of deterministic
functions), and everything a run observes from outside the script - clock
readings, raised exceptions, the interpreter's initial RNG state, the library
implementation - is collected in an environment record.
-/

/-- Timestamps and elapsed times; Python floats are modelled as rationals. -/
abbrev Time := ℚ

/-- State of numpy's global random generator, abstracted to a single value. -/
abbrev RNG := ℕ

/-- Modelled from the spec: `np.random.seed(s)` (source line 16) discards the
previous global RNG state and replaces it with a state determined by the seed
alone. -/
def npSeed (_old : RNG) (s : ℕ) : RNG := s

/-- The eight statistical operations, named as in the spec's declared order. -/
inductive OpName
  | rollingVariance
  | coefficientOfVariation
  | skewness
  | kurtosis
  | lag1Autocorrelation
  | spectralMax
  | kendallTau
  | blockBootstrap
  deriving DecidableEq

/-- Operation invoked by the k-th timing loop of the source
(lines 25, 31, 37, 43, 49, 55, 61, 67: compute_var, compute_cv, compute_skew,
compute_kurt, compute_auto lag 1, compute_smax, compute_ktau, block_bootstrap). -/
def opAt : ℕ → OpName
  | 0 => OpName.rollingVariance
  | 1 => OpName.coefficientOfVariation
  | 2 => OpName.skewness
  | 3 => OpName.kurtosis
  | 4 => OpName.lag1Autocorrelation
  | 5 => OpName.spectralMax
  | 6 => OpName.kendallTau
  | _ => OpName.blockBootstrap

/-- Fixed declared operation order of the spec (section 6, output file 2). -/
def opOrder : List OpName :=
  [OpName.rollingVariance, OpName.coefficientOfVariation, OpName.skewness,
   OpName.kurtosis, OpName.lag1Autocorrelation, OpName.spectralMax,
   OpName.kendallTau, OpName.blockBootstrap]

/-- Modelled from the spec: the surface of the external ewstools/numpy library
whose outputs feed the script's own data flow - the Ricker simulator (line 9)
and the Lowess smoother used by detrend (line 11). Per the spec's
external-collaborator contract both are deterministic functions of their
arguments; their numeric content is opaque to the harness. -/
structure EWSLib where
  simulate_ricker : RNG → ℕ → ℚ × ℚ → List ℚ
  lowess : ℚ → List ℚ → List ℚ

/-- Analysis context: an ewstools.TimeSeries plus the derived state populated
by preprocessing (source lines 10-13, spec section 3). -/
structure AnalysisContext where
  series : List ℚ
  transition : ℕ
  state : List ℚ
  smoothing : List ℚ
  residuals : List ℚ
  spectrumDone : Bool

/-- ewstools.TimeSeries constructor (line 10): `state` starts as the raw data;
smoothing, residuals and spectrum are not yet populated. -/
def TimeSeries.init (data : List ℚ) (transition : ℕ) : AnalysisContext :=
  { series := data, transition := transition, state := data,
    smoothing := [], residuals := [], spectrumDone := false }

/-- detrend (line 11): populates `smoothing` with the Lowess smooth of the
state and `residuals` with state minus smoothing (spec sections 3 and 4.2). -/
def detrend (lib : EWSLib) (span : ℚ) (ts : AnalysisContext) : AnalysisContext :=
  let sm := lib.lowess span ts.state
  { ts with smoothing := sm,
            residuals := List.zipWith (fun a b => a - b) ts.state sm }

/-- compute_spectrum (line 13): populates the rolling spectrum; the harness
never reads its output (spec 4.2), so only the fact of the call is tracked. -/
def compute_spectrum (ts : AnalysisContext) : AnalysisContext :=
  { ts with spectrumDone := true }

/-- Number of timed trials per operation (source line 19). -/
def n : ℕ := 100

/-- Length of the simulated series (source line 9). -/
def tmax : ℕ := 1000

/-- Control-parameter ramp F = [0, 2.7] (source line 9). -/
def Fparam : ℚ × ℚ := (0, 27 / 10)

/-- Transition index (source line 10). -/
def transitionIdx : ℕ := 860

/-- Rolling window (source line 17). -/
def rw : ℚ := 1 / 2

/-- Lowess span (source line 11). -/
def lowessSpan : ℚ := 1 / 5

/-- Source line of the timed library call inside the k-th loop
(lines 25, 31, 37, 43, 49, 55, 61, 67). -/
def opCallLine (k : ℕ) : ℕ := 25 + 6 * k

/-- ewstools_setup (source lines 7-14): simulate the series, construct the
TimeSeries, detrend, plot, compute the spectrum. The plot call (line 12) does
not touch the data. -/
def ewstools_setup (lib : EWSLib) (rng : RNG) : AnalysisContext :=
  let series := lib.simulate_ricker rng tmax Fparam
  let ts := TimeSeries.init series transitionIdx
  let ts := detrend lib lowessSpan ts
  compute_spectrum ts

/-- Python clock primitives relevant to the harness. -/
inductive PyClock
  | time_time
  | perf_counter
  | monotonic
  deriving DecidableEq

/-- Classification of the primitives: `time.time` is the adjustable wall
clock; `perf_counter` and `monotonic` are the monotonic clocks. -/
def PyClock.isMonotonicClock : PyClock → Bool
  | PyClock.time_time => false
  | PyClock.perf_counter => true
  | PyClock.monotonic => true

/-- Observable events of one run, used to state the temporal claims. -/
inductive Ev
  | seedCall
  | genCall
  | detrendCall
  | plotCall
  | spectrumCall
  | timeCall (prim : PyClock) (tick : ℕ)
  | opCall (k i : ℕ)
  | fileWrite (j : ℕ)
  deriving DecidableEq

/-- Uncaught Python exception: payload plus the source line the traceback
reports. -/
structure Fatal where
  exc : ℕ
  line : ℕ
  deriving DecidableEq

/-- Everything outside the script a run depends on: the values successive
`time.time()` calls return, whether a timed call or a file write raises, the
interpreter's initial global RNG state, and the library implementation. -/
structure Env where
  clock : ℕ → Time
  opExc : ℕ → ℕ → Option ℕ
  writeExc : ℕ → Option ℕ
  rng0 : RNG
  lib : EWSLib

/-- Mutable state of the script: the `time.time()` call counter, the two
numpy arrays (lines 20-21), the event trace in reverse chronological order,
the analysis context, and the contents of the two output files once written. -/
structure St where
  tick : ℕ
  t_elapsed : List Time
  t_minruntime : List Time
  rtrace : List Ev
  ctx : AnalysisContext
  file1 : Option (List ℚ)
  file2 : Option (List Time)

/-- Python's builtin `min` over a nonempty sequence (lines 27, 33, 39, 45,
51, 57, 63, 69); the empty case is unreachable since n = 100 > 0. -/
def listMin : List Time → Time
  | [] => 0
  | x :: xs => xs.foldl min x

/-- One timing loop body iterated over a list of trial indices (e.g. lines
23-26): read the clock, invoke the operation (aborting the run if it raises),
read the clock again and store the difference in `t_elapsed[i]`. -/
def runTrials (env : Env) (k : ℕ) : List ℕ → St → St × Option Fatal
  | [], s => (s, none)
  | i :: is, s =>
    let t0 := env.clock s.tick
    let s1 : St := { s with tick := s.tick + 1,
                            rtrace := Ev.timeCall PyClock.time_time s.tick :: s.rtrace }
    let s2 : St := { s1 with rtrace := Ev.opCall k i :: s1.rtrace }
    match env.opExc k i with
    | some e => (s2, some { exc := e, line := opCallLine k })
    | none =>
      let t1 := env.clock s2.tick
      let s3 : St := { s2 with tick := s2.tick + 1,
                               rtrace := Ev.timeCall PyClock.time_time s2.tick :: s2.rtrace }
      runTrials env k is { s3 with t_elapsed := s3.t_elapsed.set i (t1 - t0) }

/-- The k-th loop followed by `t_minruntime[k] = min(t_elapsed)`
(e.g. lines 23-27). -/
def runOp (env : Env) (k : ℕ) (s : St) : St × Option Fatal :=
  match runTrials env k (List.range n) s with
  | (s', some f) => (s', some f)
  | (s', none) =>
    ({ s' with t_minruntime := s'.t_minruntime.set k (listMin s'.t_elapsed) }, none)

/-- The eight timing loops in source order (lines 23-69). -/
def runOps (env : Env) : List ℕ → St → St × Option Fatal
  | [], s => (s, none)
  | k :: ks, s =>
    match runOp env k s with
    | (s', some f) => (s', some f)
    | (s', none) => runOps env ks s'

/-- The two `np.savetxt` calls (lines 71-72): residuals first, then the
timing array; a raised write error aborts before the corresponding file
exists. -/
def writeOutputs (env : Env) (s : St) : St × Option Fatal :=
  match env.writeExc 0 with
  | some e => (s, some { exc := e, line := 71 })
  | none =>
    let s1 : St := { s with file1 := some s.ctx.residuals,
                            rtrace := Ev.fileWrite 0 :: s.rtrace }
    match env.writeExc 1 with
    | some e => (s1, some { exc := e, line := 72 })
    | none =>
      ({ s1 with file2 := some s1.t_minruntime,
                 rtrace := Ev.fileWrite 1 :: s1.rtrace }, none)

/-- Setup events in forward order (lines 16, 9, 11, 12, 13). -/
def setupFwd : List Ev :=
  [Ev.seedCall, Ev.genCall, Ev.detrendCall, Ev.plotCall, Ev.spectrumCall]

/-- Script state right after line 21: RNG seeded and consumed by setup,
zeroed arrays, no files written. -/
def initSt (env : Env) : St :=
  { tick := 0, t_elapsed := List.replicate n 0,
    t_minruntime := List.replicate 8 0,
    rtrace := setupFwd.reverse,
    ctx := ewstools_setup env.lib (npSeed env.rng0 0),
    file1 := none, file2 := none }

/-- The whole script (lines 16-72): seed, setup, eight timing loops, two
writes. The second component is the uncaught exception, if any. -/
def runScript (env : Env) : St × Option Fatal :=
  match runOps env (List.range 8) (initSt env) with
  | (s, some f) => (s, some f)
  | (s, none) => writeOutputs env s

/-- Event trace of a run in chronological order. -/
def evTrace (r : St × Option Fatal) : List Ev := r.1.rtrace.reverse

/-- Process exit status: CPython exits 0 when the script runs to completion
and 1 on an uncaught exception. -/
def exitCode (r : St × Option Fatal) : ℕ :=
  match r.2 with
  | none => 0
  | some _ => 1

/-- Index of the first `time.time()` call of operation k's loop: two calls
per trial, n trials per loop. -/
def trialBase (k : ℕ) : ℕ := 2 * n * k

/-- Elapsed time recorded for trial i of operation k: the difference of the
two clock readings around that call. -/
def sample (env : Env) (k i : ℕ) : Time :=
  env.clock (trialBase k + 2 * i + 1) - env.clock (trialBase k + 2 * i)

/-- The n elapsed samples of operation k. -/
def samples (env : Env) (k : ℕ) : List Time :=
  (List.range n).map (sample env k)

/-- Elapsed samples produced by a loop whose first clock call has index
`base`: one sample per trial, two clock reads per trial. -/
def windowSamples (env : Env) (base : ℕ) : List Time :=
  (List.range n).map (fun i => env.clock (base + 2 * i + 1) - env.clock (base + 2 * i))

/-- Scalar a loop reports when its first clock call has index `base`. -/
def opReport (env : Env) (base : ℕ) : Time :=
  listMin (windowSamples env base)

/-- Closed form of the effect of a clean timing loop on `t_elapsed`:
each listed trial stores the difference of its two clock readings. -/
def applyTrials (env : Env) (k : ℕ) : ℕ → List ℕ → List Time → List Time
  | _, [], buf => buf
  | t0, i :: is, buf =>
    applyTrials env k (t0 + 2) is (buf.set i (env.clock (t0 + 1) - env.clock t0))

/-- Events of a clean timing loop, chronological: before-timestamp, call,
after-timestamp, for each trial in turn. -/
def trialsFwd (k : ℕ) : ℕ → List ℕ → List Ev
  | _, [] => []
  | t0, i :: is =>
    Ev.timeCall PyClock.time_time t0 :: Ev.opCall k i ::
      Ev.timeCall PyClock.time_time (t0 + 1) :: trialsFwd k (t0 + 2) is

/-- State after a clean timing loop over the given trial list. -/
def trialsEnd (env : Env) (k : ℕ) (is : List ℕ) (s : St) : St :=
  { s with tick := s.tick + 2 * is.length,
           t_elapsed := applyTrials env k s.tick is s.t_elapsed,
           rtrace := (trialsFwd k s.tick is).reverse ++ s.rtrace }

/-- State after a clean loop plus its minimum assignment. -/
def opEnd (env : Env) (k : ℕ) (s : St) : St :=
  let s' := trialsEnd env k (List.range n) s
  { s' with t_minruntime := s'.t_minruntime.set k (listMin s'.t_elapsed) }

/-- State after a clean sequence of loops. -/
def opsEnd (env : Env) : List ℕ → St → St
  | [], s => s
  | k :: ks, s => opsEnd env ks (opEnd env k s)

/-- Events of a clean sequence of loops, chronological. -/
def opsFwd : List ℕ → ℕ → List Ev
  | [], _ => []
  | k :: ks, t0 => trialsFwd k t0 (List.range n) ++ opsFwd ks (t0 + 2 * n)

/-- Full chronological event trace of a successful run. -/
def successFwd : List Ev :=
  setupFwd ++ opsFwd (List.range 8) 0 ++ [Ev.fileWrite 0, Ev.fileWrite 1]

/-- Final state of a successful run. -/
def finalSt (env : Env) : St :=
  let s := opsEnd env (List.range 8) (initSt env)
  { s with file1 := some s.ctx.residuals,
           file2 := some s.t_minruntime,
           rtrace := Ev.fileWrite 1 :: Ev.fileWrite 0 :: s.rtrace }

/-- Events emitted after setup: wall-clock timestamps, timed calls, file
writes - and nothing else. -/
def loopish : Ev → Bool
  | Ev.timeCall p _ => p == PyClock.time_time
  | Ev.opCall _ _ => true
  | Ev.fileWrite _ => true
  | _ => false

/-- Holds of an event unless it is a timestamp taken with a clock other than
`time.time`. -/
def wallOnly : Ev → Bool
  | Ev.timeCall p _ => p == PyClock.time_time
  | _ => true

/-- Recognizes the timed-call events of operation k. -/
def isOpCallOf (k : ℕ) : Ev → Bool
  | Ev.opCall k' _ => k' == k
  | _ => false

/-- Recognizes timestamp events. -/
def isTimeCallB : Ev → Bool
  | Ev.timeCall _ _ => true
  | _ => false

/-- Recognizes timestamp events taken with a monotonic clock. -/
def isMonoTimeCall : Ev → Bool
  | Ev.timeCall p _ => p.isMonotonicClock
  | _ => false

/-- Recognizes the two preprocessing events. -/
def isPreproc : Ev → Bool
  | Ev.detrendCall => true
  | Ev.spectrumCall => true
  | _ => false

/-- Simplest implementation of the external library contract, used to
instantiate theorems at concrete inputs. -/
def trivLib : EWSLib :=
  { simulate_ricker := fun _ t _ => List.map (fun j : ℕ => (j : ℚ)) (List.range t),
    lowess := fun _ xs => xs }

/-- Concrete benign environment: strictly increasing clock, no exceptions. -/
def envW : Env :=
  { clock := fun j => (j : ℚ), opExc := fun _ _ => none,
    writeExc := fun _ => none, rng0 := 0, lib := trivLib }

/-- Concrete environment whose wall clock steps backwards once (between the
first and second timestamp), as a clock adjustment can make `time.time` do. -/
def envNeg : Env :=
  { clock := fun j => if j = 1 then (-1 : ℚ) else 0,
    opExc := fun _ _ => none, writeExc := fun _ => none, rng0 := 0, lib := trivLib }

/-- Environment in which operation 3 raises exception 7 at trial i0 and
everything else is benign. -/
def envFail (i0 : ℕ) : Env :=
  { clock := fun _ => 0,
    opExc := fun k i => if k = 3 ∧ i = i0 then some 7 else none,
    writeExc := fun _ => none, rng0 := 0, lib := trivLib }

lemma foldl_min_le_init (xs : List Time) (x : Time) : xs.foldl min x ≤ x := by
  induction xs generalizing x with
  | nil => simp
  | cons y ys ih => exact le_trans (ih (min x y)) (min_le_left x y)

lemma foldl_min_le_mem (xs : List Time) (x a : Time) (ha : a ∈ xs) :
    xs.foldl min x ≤ a := by
  induction xs generalizing x with
  | nil => simp at ha
  | cons y ys ih =>
    rcases List.mem_cons.mp ha with rfl | ha'
    · exact le_trans (foldl_min_le_init ys (min x a)) (min_le_right x a)
    · exact ih (min x y) ha'

lemma listMin_le (l : List Time) (a : Time) (ha : a ∈ l) : listMin l ≤ a := by
  cases l with
  | nil => simp at ha
  | cons x xs =>
    rcases List.mem_cons.mp ha with rfl | ha'
    · exact foldl_min_le_init xs a
    · exact foldl_min_le_mem xs x a ha'

lemma le_foldl_min (xs : List Time) (x c : Time) (hx : c ≤ x)
    (h : ∀ a ∈ xs, c ≤ a) : c ≤ xs.foldl min x := by
  induction xs generalizing x with
  | nil => simpa using hx
  | cons y ys ih =>
    exact ih (min x y) (le_min hx (h y (by simp)))
      (fun a ha => h a (by simp [ha]))

lemma listMin_nonneg (l : List Time) (h : ∀ a ∈ l, 0 ≤ a) : 0 ≤ listMin l := by
  cases l with
  | nil => simp [listMin]
  | cons x xs =>
    exact le_foldl_min xs x 0 (h x (by simp)) (fun a ha => h a (by simp [ha]))

lemma applyTrials_length (env : Env) (k : ℕ) (is : List ℕ) :
    ∀ t0 buf, (applyTrials env k t0 is buf).length = buf.length := by
  induction is with
  | nil => intro t0 buf; rfl
  | cons i is ih =>
    intro t0 buf
    simp [applyTrials, ih]

lemma runTrials_clean (env : Env) (k : ℕ) (is : List ℕ) :
    ∀ s : St, (∀ i ∈ is, env.opExc k i = none) →
      runTrials env k is s = (trialsEnd env k is s, none) := by
  induction is with
  | nil =>
    intro s _
    simp only [runTrials, trialsEnd]
    cases s
    simp [applyTrials, trialsFwd]
  | cons i is ih =>
    intro s h
    have hi : env.opExc k i = none := h i (by simp)
    have hrest : ∀ j ∈ is, env.opExc k j = none := fun j hj => h j (by simp [hj])
    simp only [runTrials, hi]
    rw [ih _ hrest]
    have : trialsEnd env k is
        { s with tick := s.tick + 1 + 1,
                 rtrace := Ev.timeCall PyClock.time_time (s.tick + 1) ::
                   Ev.opCall k i :: Ev.timeCall PyClock.time_time s.tick :: s.rtrace,
                 t_elapsed := s.t_elapsed.set i (env.clock (s.tick + 1) - env.clock s.tick) }
        = trialsEnd env k (i :: is) s := by
      cases s
      have ht : ∀ t : ℕ, t + 1 + 1 = t + 2 := fun t => by omega
      simp only [trialsEnd, trialsFwd, applyTrials, List.length_cons, List.reverse_cons,
                 ht, St.mk.injEq, List.append_assoc, List.cons_append, List.singleton_append,
                 List.nil_append, and_true, true_and]
      omega
    rw [this]


lemma runOp_clean (env : Env) (k : ℕ) (s : St)
    (h : ∀ i ∈ List.range n, env.opExc k i = none) :
    runOp env k s = (opEnd env k s, none) := by
  simp [runOp, runTrials_clean env k (List.range n) s h, opEnd]

lemma runOps_clean (env : Env) (ks : List ℕ) :
    ∀ s : St, (∀ k ∈ ks, ∀ i ∈ List.range n, env.opExc k i = none) →
      runOps env ks s = (opsEnd env ks s, none) := by
  induction ks with
  | nil => intro s _; rfl
  | cons k ks ih =>
    intro s h
    simp only [runOps, runOp_clean env k s (h k (by simp)), opsEnd]
    exact ih _ (fun k' hk' i hi => h k' (by simp [hk']) i hi)

lemma runTrials_fst_fields (env : Env) (k : ℕ) (is : List ℕ) :
    ∀ s : St, ((runTrials env k is s).1.ctx = s.ctx ∧
      (runTrials env k is s).1.file1 = s.file1 ∧
      (runTrials env k is s).1.file2 = s.file2 ∧
      (runTrials env k is s).1.t_minruntime = s.t_minruntime) := by
  induction is with
  | nil => intro s; exact ⟨rfl, rfl, rfl, rfl⟩
  | cons i is ih =>
    intro s
    simp only [runTrials]
    cases h : env.opExc k i with
    | some e => exact ⟨rfl, rfl, rfl, rfl⟩
    | none => exact ih _

lemma runOp_fst_fields (env : Env) (k : ℕ) (s : St) :
    (runOp env k s).1.ctx = s.ctx ∧ (runOp env k s).1.file1 = s.file1 ∧
      (runOp env k s).1.file2 = s.file2 := by
  have h := runTrials_fst_fields env k (List.range n) s
  simp only [runOp]
  rcases hr : runTrials env k (List.range n) s with ⟨s', o⟩
  rw [hr] at h
  cases o with
  | some f => exact ⟨h.1, h.2.1, h.2.2.1⟩
  | none => exact ⟨h.1, h.2.1, h.2.2.1⟩

lemma runOps_fst_fields (env : Env) (ks : List ℕ) :
    ∀ s : St, (runOps env ks s).1.ctx = s.ctx ∧
      (runOps env ks s).1.file1 = s.file1 ∧ (runOps env ks s).1.file2 = s.file2 := by
  induction ks with
  | nil => intro s; exact ⟨rfl, rfl, rfl⟩
  | cons k ks ih =>
    intro s
    have h := runOp_fst_fields env k s
    simp only [runOps]
    rcases hr : runOp env k s with ⟨s', o⟩
    rw [hr] at h
    cases o with
    | some f => exact h
    | none =>
      have h2 := ih s'
      exact ⟨h2.1.trans h.1, h2.2.1.trans h.2.1, h2.2.2.trans h.2.2⟩

lemma runScript_ctx (env : Env) :
    (runScript env).1.ctx = ewstools_setup env.lib (npSeed env.rng0 0) := by
  have h := runOps_fst_fields env (List.range 8) (initSt env)
  simp only [runScript]
  rcases hr : runOps env (List.range 8) (initSt env) with ⟨s, o⟩
  rw [hr] at h
  cases o with
  | some f => exact h.1
  | none =>
    show (writeOutputs env s).1.ctx = _
    have hctx : s.ctx = (initSt env).ctx := h.1
    simp only [writeOutputs]
    cases env.writeExc 0 with
    | some e => exact hctx
    | none =>
      cases env.writeExc 1 with
      | some e => exact hctx
      | none => exact hctx

lemma runTrials_none_iff (env : Env) (k : ℕ) (is : List ℕ) :
    ∀ s : St, ((runTrials env k is s).2 = none ↔ ∀ i ∈ is, env.opExc k i = none) := by
  induction is with
  | nil => intro s; simp [runTrials]
  | cons i is ih =>
    intro s
    simp only [runTrials]
    cases h : env.opExc k i with
    | some e => simp [h]
    | none => simp [h, ih]

lemma runOp_none_iff (env : Env) (k : ℕ) (s : St) :
    (runOp env k s).2 = none ↔ ∀ i ∈ List.range n, env.opExc k i = none := by
  have h := runTrials_none_iff env k (List.range n) s
  simp only [runOp]
  rcases hr : runTrials env k (List.range n) s with ⟨s', o⟩
  rw [hr] at h
  cases o with
  | some f => simpa using h
  | none => simpa using h

lemma runOps_none_iff (env : Env) (ks : List ℕ) :
    ∀ s : St, ((runOps env ks s).2 = none ↔
      ∀ k ∈ ks, ∀ i ∈ List.range n, env.opExc k i = none) := by
  induction ks with
  | nil => intro s; simp [runOps]
  | cons k ks ih =>
    intro s
    simp only [runOps]
    have h := runOp_none_iff env k s
    rcases hr : runOp env k s with ⟨s', o⟩
    rw [hr] at h
    cases o with
    | some f =>
      have h' : ((s', some f) : St × Option Fatal).2 = none ↔
          ∀ i ∈ List.range n, env.opExc k i = none := h
      simp only [List.forall_mem_cons]
      constructor
      · intro hc; exact absurd hc (by simp)
      · intro hall
        have hcontra : ((s', some f) : St × Option Fatal).2 = none := h'.mpr hall.1
        simp at hcontra
    | none =>
      have h' : ∀ i ∈ List.range n, env.opExc k i = none := h.mp rfl
      simp only [List.forall_mem_cons]
      constructor
      · intro hc; exact ⟨h', (ih s').mp hc⟩
      · intro hall; exact (ih s').mpr hall.2

lemma runScript_none_iff (env : Env) :
    (runScript env).2 = none ↔
      ((∀ k ∈ List.range 8, ∀ i ∈ List.range n, env.opExc k i = none) ∧
        env.writeExc 0 = none ∧ env.writeExc 1 = none) := by
  simp only [runScript]
  have h := runOps_none_iff env (List.range 8) (initSt env)
  rcases hr : runOps env (List.range 8) (initSt env) with ⟨s, o⟩
  rw [hr] at h
  cases o with
  | some f =>
    have h' : ((s, some f) : St × Option Fatal).2 = none ↔
        ∀ k ∈ List.range 8, ∀ i ∈ List.range n, env.opExc k i = none := h
    constructor
    · intro hc; exact absurd hc (by simp)
    · intro hall
      have hcontra : ((s, some f) : St × Option Fatal).2 = none := h'.mpr hall.1
      simp at hcontra
  | none =>
    have hops : ∀ k ∈ List.range 8, ∀ i ∈ List.range n, env.opExc k i = none := h.mp rfl
    simp only [writeOutputs]
    cases hw0 : env.writeExc 0 with
    | some e =>
      constructor
      · intro hc; exact absurd hc (by simp)
      · intro hall; exact absurd hall.2.1 (by simp [hw0])
    | none =>
      cases hw1 : env.writeExc 1 with
      | some e =>
        constructor
        · intro hc; exact absurd hc (by simp)
        · intro hall; exact absurd hall.2.2 (by simp [hw1])
      | none => exact ⟨fun _ => ⟨hops, rfl, rfl⟩, fun _ => rfl⟩

lemma applyTrials_get? (env : Env) (k : ℕ) :
    ∀ (m i0 t0 : ℕ) (buf : List Time) (j : ℕ), i0 + m ≤ buf.length →
      (applyTrials env k t0 (List.range' i0 m) buf).get? j =
        if i0 ≤ j ∧ j < i0 + m
        then some (env.clock (t0 + 2 * (j - i0) + 1) - env.clock (t0 + 2 * (j - i0)))
        else buf.get? j := by
  intro m
  induction m with
  | zero =>
    intro i0 t0 buf j _
    simp only [List.range', applyTrials]
    rw [if_neg (by omega)]
  | succ m ih =>
    intro i0 t0 buf j hlen
    rw [List.range'_succ]
    simp only [applyTrials]
    rw [ih (i0 + 1) (t0 + 2) _ j (by simp [List.length_set]; omega)]
    by_cases h1 : i0 ≤ j ∧ j < i0 + (m + 1)
    · by_cases h2 : j = i0
      · subst h2
        have hnot : ¬ (j + 1 ≤ j ∧ j < j + 1 + m) := by omega
        rw [if_neg hnot, if_pos h1]
        rw [List.get?_set_eq_of_lt _ (by omega : j < buf.length)]
        have e1 : t0 + 2 * (j - j) + 1 = t0 + 1 := by omega
        have e2 : t0 + 2 * (j - j) = t0 := by omega
        rw [e1, e2]
      · have h3 : i0 + 1 ≤ j ∧ j < i0 + 1 + m := by omega
        rw [if_pos h3, if_pos h1]
        have e1 : t0 + 2 + 2 * (j - (i0 + 1)) + 1 = t0 + 2 * (j - i0) + 1 := by omega
        have e2 : t0 + 2 + 2 * (j - (i0 + 1)) = t0 + 2 * (j - i0) := by omega
        rw [e1, e2]
    · have hnot : ¬ (i0 + 1 ≤ j ∧ j < i0 + 1 + m) := by omega
      rw [if_neg hnot, if_neg h1]
      exact List.get?_set_ne _ _ (by omega)

lemma windowSamples_length (env : Env) (base : ℕ) :
    (windowSamples env base).length = n := by
  simp [windowSamples]

lemma applyTrials_range_eq (env : Env) (k t0 : ℕ) (buf : List Time)
    (hbuf : buf.length = n) :
    applyTrials env k t0 (List.range n) buf = windowSamples env t0 := by
  apply List.ext_get?_iff.mpr
  intro j
  rw [List.range_eq_range' n]
  rw [applyTrials_get? env k n 0 t0 buf j (by omega)]
  simp only [windowSamples]
  rw [List.get?_map]
  by_cases hj : j < n
  · rw [if_pos (by omega)]
    rw [List.get?_range hj]
    simp
  · have h1 : buf.get? j = none := List.get?_eq_none.mpr (by omega)
    have h2 : (List.range n).get? j = none :=
      List.get?_eq_none.mpr (by simpa using Nat.le_of_not_lt hj)
    rw [if_neg (by omega), h1, h2]
    rfl

lemma samples_eq_window (env : Env) (k : ℕ) :
    samples env k = windowSamples env (trialBase k) := rfl

lemma opEnd_tick (env : Env) (k : ℕ) (s : St) :
    (opEnd env k s).tick = s.tick + 2 * n := by
  simp [opEnd, trialsEnd]

lemma opEnd_elapsed (env : Env) (k : ℕ) (s : St) (hbuf : s.t_elapsed.length = n) :
    (opEnd env k s).t_elapsed = windowSamples env s.tick := by
  simp [opEnd, trialsEnd, applyTrials_range_eq env k s.tick s.t_elapsed hbuf]

lemma opEnd_tmin (env : Env) (k : ℕ) (s : St) (hbuf : s.t_elapsed.length = n) :
    (opEnd env k s).t_minruntime = s.t_minruntime.set k (opReport env s.tick) := by
  simp [opEnd, trialsEnd, opReport,
        applyTrials_range_eq env k s.tick s.t_elapsed hbuf]

lemma opEnd_tmin_length (env : Env) (k : ℕ) (s : St) :
    (opEnd env k s).t_minruntime.length = s.t_minruntime.length := by
  simp [opEnd, trialsEnd]

lemma opEnd_ctx (env : Env) (k : ℕ) (s : St) : (opEnd env k s).ctx = s.ctx := rfl

lemma opEnd_file1 (env : Env) (k : ℕ) (s : St) : (opEnd env k s).file1 = s.file1 := rfl

lemma opEnd_file2 (env : Env) (k : ℕ) (s : St) : (opEnd env k s).file2 = s.file2 := rfl

lemma opEnd_rtrace (env : Env) (k : ℕ) (s : St) :
    (opEnd env k s).rtrace = (trialsFwd k s.tick (List.range n)).reverse ++ s.rtrace := rfl

lemma opsEnd_ctx (env : Env) (ks : List ℕ) :
    ∀ s : St, (opsEnd env ks s).ctx = s.ctx := by
  induction ks with
  | nil => intro s; rfl
  | cons k ks ih => intro s; simp [opsEnd, ih, opEnd_ctx]

lemma opsEnd_file1 (env : Env) (ks : List ℕ) :
    ∀ s : St, (opsEnd env ks s).file1 = s.file1 := by
  induction ks with
  | nil => intro s; rfl
  | cons k ks ih => intro s; simp [opsEnd, ih, opEnd_file1]

lemma opsEnd_file2 (env : Env) (ks : List ℕ) :
    ∀ s : St, (opsEnd env ks s).file2 = s.file2 := by
  induction ks with
  | nil => intro s; rfl
  | cons k ks ih => intro s; simp [opsEnd, ih, opEnd_file2]

lemma opsEnd_tick (env : Env) (ks : List ℕ) :
    ∀ s : St, (opsEnd env ks s).tick = s.tick + 2 * n * ks.length := by
  induction ks with
  | nil => intro s; simp [opsEnd]
  | cons k ks ih =>
    intro s
    simp only [opsEnd, ih, opEnd_tick, List.length_cons]
    ring

lemma opEnd_elapsed_length (env : Env) (k : ℕ) (s : St)
    (hbuf : s.t_elapsed.length = n) : (opEnd env k s).t_elapsed.length = n := by
  rw [opEnd_elapsed env k s hbuf, windowSamples_length]

lemma opsEnd_elapsed_length (env : Env) (ks : List ℕ) :
    ∀ s : St, s.t_elapsed.length = n → (opsEnd env ks s).t_elapsed.length = n := by
  induction ks with
  | nil => intro s h; exact h
  | cons k ks ih =>
    intro s h
    exact ih _ (opEnd_elapsed_length env k s h)

lemma opsEnd_tmin_length (env : Env) (ks : List ℕ) :
    ∀ s : St, (opsEnd env ks s).t_minruntime.length = s.t_minruntime.length := by
  induction ks with
  | nil => intro s; rfl
  | cons k ks ih => intro s; simp [opsEnd, ih, opEnd_tmin_length]

lemma opsEnd_tmin_get? (env : Env) :
    ∀ (m k0 : ℕ) (s : St) (j : ℕ), s.t_elapsed.length = n →
      k0 + m ≤ s.t_minruntime.length →
      (opsEnd env (List.range' k0 m) s).t_minruntime.get? j =
        if k0 ≤ j ∧ j < k0 + m
        then some (opReport env (s.tick + 2 * n * (j - k0)))
        else s.t_minruntime.get? j := by
  intro m
  induction m with
  | zero =>
    intro k0 s j _ _
    simp only [List.range', opsEnd]
    rw [if_neg (by omega)]
  | succ m ih =>
    intro k0 s j hbuf hlen
    rw [List.range'_succ]
    simp only [opsEnd]
    rw [ih (k0 + 1) (opEnd env k0 s) j (opEnd_elapsed_length env k0 s hbuf)
          (by rw [opEnd_tmin_length]; omega)]
    rw [opEnd_tick, opEnd_tmin env k0 s hbuf]
    by_cases h1 : k0 ≤ j ∧ j < k0 + (m + 1)
    · by_cases h2 : j = k0
      · subst h2
        rw [if_neg (by omega), if_pos h1]
        rw [List.get?_set_eq_of_lt _ (by omega : j < s.t_minruntime.length)]
        have e1 : s.tick + 2 * n * (j - j) = s.tick := by
          simp
        rw [e1]
      · have h3 : k0 + 1 ≤ j ∧ j < k0 + 1 + m := by omega
        rw [if_pos h3, if_pos h1]
        have e1 : s.tick + 2 * n + 2 * n * (j - (k0 + 1)) = s.tick + 2 * n * (j - k0) := by
          have hj : j - k0 = (j - (k0 + 1)) + 1 := by omega
          rw [hj, Nat.mul_add, Nat.mul_one]
          ring
        rw [e1]
    · have hnot : ¬ (k0 + 1 ≤ j ∧ j < k0 + 1 + m) := by omega
      rw [if_neg hnot, if_neg h1]
      exact List.get?_set_ne _ _ (by omega)

lemma opsEnd_elapsed_last (env : Env) :
    ∀ (m k0 : ℕ) (s : St), s.t_elapsed.length = n →
      (opsEnd env (List.range' k0 (m + 1)) s).t_elapsed =
        windowSamples env (s.tick + 2 * n * m) := by
  intro m
  induction m with
  | zero =>
    intro k0 s hbuf
    rw [List.range'_succ]
    simp only [List.range', opsEnd]
    rw [opEnd_elapsed env k0 s hbuf]
    simp
  | succ m ih =>
    intro k0 s hbuf
    rw [List.range'_succ]
    rw [show opsEnd env (k0 :: List.range' (k0 + 1) (m + 1)) s
          = opsEnd env (List.range' (k0 + 1) (m + 1)) (opEnd env k0 s) from rfl]
    rw [ih (k0 + 1) (opEnd env k0 s) (opEnd_elapsed_length env k0 s hbuf)]
    rw [opEnd_tick]
    have e1 : s.tick + 2 * n + 2 * n * m = s.tick + 2 * n * (m + 1) := by ring
    rw [e1]

lemma runScript_clean (env : Env)
    (hop : ∀ k ∈ List.range 8, ∀ i ∈ List.range n, env.opExc k i = none)
    (hw0 : env.writeExc 0 = none) (hw1 : env.writeExc 1 = none) :
    runScript env = (finalSt env, none) := by
  simp only [runScript]
  rw [runOps_clean env (List.range 8) (initSt env) hop]
  simp only [writeOutputs, hw0, hw1, finalSt]

lemma run_ok_clean (env : Env) (hok : (runScript env).2 = none) :
    (∀ k ∈ List.range 8, ∀ i ∈ List.range n, env.opExc k i = none) ∧
      env.writeExc 0 = none ∧ env.writeExc 1 = none :=
  (runScript_none_iff env).mp hok

lemma run_ok_eq (env : Env) (hok : (runScript env).2 = none) :
    runScript env = (finalSt env, none) := by
  obtain ⟨hop, hw0, hw1⟩ := run_ok_clean env hok
  exact runScript_clean env hop hw0 hw1

lemma initSt_elapsed_length (env : Env) : (initSt env).t_elapsed.length = n := by
  simp [initSt]

lemma initSt_tmin_length (env : Env) : (initSt env).t_minruntime.length = 8 := by
  simp [initSt]

lemma run_ok_tmin_get? (env : Env) (hok : (runScript env).2 = none) (k : ℕ) :
    (runScript env).1.t_minruntime.get? k =
      if k < 8 then some (listMin (samples env k)) else none := by
  rw [run_ok_eq env hok]
  have h1 : ((finalSt env, (none : Option Fatal)) : St × Option Fatal).1.t_minruntime
      = (opsEnd env (List.range 8) (initSt env)).t_minruntime := rfl
  rw [h1, List.range_eq_range' 8]
  rw [opsEnd_tmin_get? env 8 0 (initSt env) k (initSt_elapsed_length env)
        (by rw [initSt_tmin_length])]
  have ht : (initSt env).tick = 0 := rfl
  by_cases hk : k < 8
  · rw [if_pos (by omega), if_pos hk, ht]
    rw [samples_eq_window]
    have e1 : 0 + 2 * n * (k - 0) = trialBase k := by
      simp [trialBase]
    rw [e1]
    rfl
  · rw [if_neg (by omega), if_neg hk]
    exact List.get?_eq_none.mpr (by rw [initSt_tmin_length]; omega)

lemma run_ok_file2 (env : Env) (hok : (runScript env).2 = none) :
    (runScript env).1.file2 = some ((runScript env).1.t_minruntime) := by
  rw [run_ok_eq env hok]
  rfl

lemma run_ok_file1 (env : Env) (hok : (runScript env).2 = none) :
    (runScript env).1.file1 = some ((runScript env).1.ctx.residuals) := by
  rw [run_ok_eq env hok]
  rfl

lemma run_ok_tmin_length (env : Env) (hok : (runScript env).2 = none) :
    (runScript env).1.t_minruntime.length = 8 := by
  rw [run_ok_eq env hok]
  have h1 : ((finalSt env, (none : Option Fatal)) : St × Option Fatal).1.t_minruntime
      = (opsEnd env (List.range 8) (initSt env)).t_minruntime := rfl
  rw [h1, opsEnd_tmin_length, initSt_tmin_length]

lemma opsEnd_rtrace (env : Env) (ks : List ℕ) :
    ∀ s : St, (opsEnd env ks s).rtrace = (opsFwd ks s.tick).reverse ++ s.rtrace := by
  induction ks with
  | nil => intro s; simp [opsEnd, opsFwd]
  | cons k ks ih =>
    intro s
    simp only [opsEnd, opsFwd]
    rw [ih (opEnd env k s), opEnd_rtrace, opEnd_tick]
    simp [List.reverse_append, List.append_assoc]

lemma run_ok_trace (env : Env) (hok : (runScript env).2 = none) :
    evTrace (runScript env) = successFwd := by
  rw [run_ok_eq env hok]
  show ((finalSt env).rtrace).reverse = successFwd
  have h1 : (finalSt env).rtrace
      = Ev.fileWrite 1 :: Ev.fileWrite 0 ::
          (opsEnd env (List.range 8) (initSt env)).rtrace := rfl
  rw [h1, opsEnd_rtrace]
  have h2 : (initSt env).rtrace = setupFwd.reverse := rfl
  have h3 : (initSt env).tick = 0 := rfl
  rw [h2, h3]
  simp [successFwd, List.reverse_append, List.append_assoc]

lemma runTrials_rtrace_ext (env : Env) (k : ℕ) (is : List ℕ) :
    ∀ s : St, ∃ es : List Ev, (runTrials env k is s).1.rtrace = es ++ s.rtrace ∧
      ∀ e ∈ es, loopish e = true := by
  induction is with
  | nil => intro s; exact ⟨[], rfl, by simp⟩
  | cons i is ih =>
    intro s
    simp only [runTrials]
    cases h : env.opExc k i with
    | some e =>
      refine ⟨[Ev.opCall k i, Ev.timeCall PyClock.time_time s.tick], rfl, ?_⟩
      intro e' he'
      simp only [List.mem_cons, List.not_mem_nil, or_false] at he'
      rcases he' with rfl | rfl <;> simp [loopish]
    | none =>
      obtain ⟨es, hes, hall⟩ := ih
        { s with tick := s.tick + 1 + 1,
                 rtrace := Ev.timeCall PyClock.time_time (s.tick + 1) ::
                   Ev.opCall k i :: Ev.timeCall PyClock.time_time s.tick :: s.rtrace,
                 t_elapsed := s.t_elapsed.set i (env.clock (s.tick + 1) - env.clock s.tick) }
      refine ⟨es ++ [Ev.timeCall PyClock.time_time (s.tick + 1), Ev.opCall k i,
                Ev.timeCall PyClock.time_time s.tick], ?_, ?_⟩
      · rw [hes]
        simp [List.append_assoc]
      · intro e' he'
        rcases List.mem_append.mp he' with h1 | h1
        · exact hall e' h1
        · simp only [List.mem_cons, List.not_mem_nil, or_false] at h1
          rcases h1 with rfl | rfl | rfl <;> simp [loopish]

lemma runOp_rtrace_ext (env : Env) (k : ℕ) (s : St) :
    ∃ es : List Ev, (runOp env k s).1.rtrace = es ++ s.rtrace ∧
      ∀ e ∈ es, loopish e = true := by
  simp only [runOp]
  obtain ⟨es, hes, hall⟩ := runTrials_rtrace_ext env k (List.range n) s
  rcases hr : runTrials env k (List.range n) s with ⟨s', o⟩
  rw [hr] at hes
  cases o with
  | some f => exact ⟨es, hes, hall⟩
  | none => exact ⟨es, hes, hall⟩

lemma runOps_rtrace_ext (env : Env) (ks : List ℕ) :
    ∀ s : St, ∃ es : List Ev, (runOps env ks s).1.rtrace = es ++ s.rtrace ∧
      ∀ e ∈ es, loopish e = true := by
  induction ks with
  | nil => intro s; exact ⟨[], rfl, by simp⟩
  | cons k ks ih =>
    intro s
    simp only [runOps]
    obtain ⟨es1, hes1, hall1⟩ := runOp_rtrace_ext env k s
    rcases hr : runOp env k s with ⟨s', o⟩
    rw [hr] at hes1
    cases o with
    | some f => exact ⟨es1, hes1, hall1⟩
    | none =>
      obtain ⟨es2, hes2, hall2⟩ := ih s'
      refine ⟨es2 ++ es1, ?_, ?_⟩
      · rw [hes2, hes1, List.append_assoc]
      · intro e he
        rcases List.mem_append.mp he with h1 | h1
        · exact hall2 e h1
        · exact hall1 e h1

lemma runScript_rtrace_ext (env : Env) :
    ∃ es : List Ev, (runScript env).1.rtrace = es ++ setupFwd.reverse ∧
      ∀ e ∈ es, loopish e = true := by
  simp only [runScript]
  obtain ⟨es, hes, hall⟩ := runOps_rtrace_ext env (List.range 8) (initSt env)
  rcases hr : runOps env (List.range 8) (initSt env) with ⟨s, o⟩
  rw [hr] at hes
  cases o with
  | some f => exact ⟨es, hes, hall⟩
  | none =>
    simp only [writeOutputs]
    cases hw0 : env.writeExc 0 with
    | some e => exact ⟨es, hes, hall⟩
    | none =>
      cases hw1 : env.writeExc 1 with
      | some e =>
        refine ⟨Ev.fileWrite 0 :: es, ?_, ?_⟩
        · show Ev.fileWrite 0 :: s.rtrace = _
          rw [hes]
          simp only [List.cons_append]
          rfl
        · intro e' he'
          rcases List.mem_cons.mp he' with rfl | h1
          · simp [loopish]
          · exact hall e' h1
      | none =>
        refine ⟨Ev.fileWrite 1 :: Ev.fileWrite 0 :: es, ?_, ?_⟩
        · show Ev.fileWrite 1 :: Ev.fileWrite 0 :: s.rtrace = _
          rw [hes]
          simp only [List.cons_append]
          rfl
        · intro e' he'
          rcases List.mem_cons.mp he' with rfl | h1
          · simp [loopish]
          rcases List.mem_cons.mp h1 with rfl | h2
          · simp [loopish]
          · exact hall e' h2

lemma evTrace_decomp (env : Env) :
    ∃ es : List Ev, evTrace (runScript env) = setupFwd ++ es ∧
      ∀ e ∈ es, loopish e = true := by
  obtain ⟨es, hes, hall⟩ := runScript_rtrace_ext env
  refine ⟨es.reverse, ?_, fun e he => hall e (List.mem_reverse.mp he)⟩
  simp [evTrace, hes, List.reverse_append]

lemma runTrials_abort (env : Env) (k e : ℕ) :
    ∀ (m i0 : ℕ) (s : St) (i : ℕ), i0 ≤ i → i < i0 + m →
      (∀ i', i0 ≤ i' → i' < i → env.opExc k i' = none) →
      env.opExc k i = some e →
      ∃ s' : St, runTrials env k (List.range' i0 m) s =
          (s', some { exc := e, line := opCallLine k }) ∧
        s'.file1 = s.file1 ∧ s'.file2 = s.file2 := by
  intro m
  induction m with
  | zero => intro i0 s i h1 h2 _ _; omega
  | succ m ih =>
    intro i0 s i h1 h2 hprev hfail
    rw [List.range'_succ]
    simp only [runTrials]
    by_cases hi : i = i0
    · subst hi
      rw [hfail]
      exact ⟨_, rfl, rfl, rfl⟩
    · have h0 : env.opExc k i0 = none := hprev i0 (le_refl i0) (by omega)
      rw [h0]
      exact ih (i0 + 1) _ i (by omega) (by omega)
        (fun i' ha hb => hprev i' (by omega) hb) hfail

lemma runTrials_abort_range (env : Env) (k e : ℕ) (s : St) (i : ℕ) (hi : i < n)
    (hrow : ∀ i' < i, env.opExc k i' = none) (hfail : env.opExc k i = some e) :
    ∃ s' : St, runTrials env k (List.range n) s =
        (s', some { exc := e, line := opCallLine k }) ∧
      s'.file1 = s.file1 ∧ s'.file2 = s.file2 := by
  rw [List.range_eq_range' n]
  exact runTrials_abort env k e n 0 s i (by omega) (by omega)
    (fun i' _ hb => hrow i' hb) hfail

lemma runOps_append_ok (env : Env) (ks1 ks2 : List ℕ) :
    ∀ s : St, (runOps env ks1 s).2 = none →
      runOps env (ks1 ++ ks2) s = runOps env ks2 (runOps env ks1 s).1 := by
  induction ks1 with
  | nil => intro s _; rfl
  | cons k ks1 ih =>
    intro s h
    simp only [List.cons_append, runOps] at h ⊢
    rcases hr : runOp env k s with ⟨s', o⟩
    rw [hr] at h
    cases o with
    | some f => simp at h
    | none => exact ih s' h

lemma range_eight_split (k : ℕ) (hk : k < 8) :
    List.range 8 = List.range' 0 k ++ List.range' k (8 - k) := by
  have h := List.range'_append 0 k (8 - k) 1
  simp only [Nat.one_mul, Nat.zero_add] at h
  have h2 : 8 - k + k = 8 := by omega
  rw [h2] at h
  rw [List.range_eq_range' 8]
  exact h.symm

lemma runScript_abort (env : Env) (k i e : ℕ) (hk : k < 8) (hi : i < n)
    (hprev : ∀ k' < k, ∀ i' < n, env.opExc k' i' = none)
    (hrow : ∀ i' < i, env.opExc k i' = none)
    (hfail : env.opExc k i = some e) :
    (runScript env).2 = some { exc := e, line := opCallLine k } ∧
      (runScript env).1.file1 = none ∧ (runScript env).1.file2 = none := by
  have hcleanpre : ∀ k' ∈ List.range' 0 k, ∀ i' ∈ List.range n, env.opExc k' i' = none := by
    intro k' hk' i' hi'
    have h1 : k' < k := by
      have := List.mem_range'_1.mp hk'
      omega
    exact hprev k' h1 i' (List.mem_range.mp hi')
  have hpre := runOps_clean env (List.range' 0 k) (initSt env) hcleanpre
  have hmid := runTrials_abort_range env k e
    (opsEnd env (List.range' 0 k) (initSt env)) i hi hrow hfail
  obtain ⟨s', hs', hf1, hf2⟩ := hmid
  have hop : runOp env k (opsEnd env (List.range' 0 k) (initSt env)) =
      (s', some { exc := e, line := opCallLine k }) := by
    simp only [runOp]
    rw [hs']
  have h8k : 8 - k = (8 - k - 1) + 1 := by omega
  have hrest : runOps env (List.range' k (8 - k)) (opsEnd env (List.range' 0 k) (initSt env)) =
      (s', some { exc := e, line := opCallLine k }) := by
    rw [h8k, List.range'_succ]
    simp only [runOps]
    rw [hop]
  have hfull : runOps env (List.range 8) (initSt env) =
      (s', some { exc := e, line := opCallLine k }) := by
    rw [range_eight_split k hk]
    rw [runOps_append_ok env _ _ _ (by rw [hpre])]
    rw [hpre]
    exact hrest
  have hscript : runScript env = (s', some { exc := e, line := opCallLine k }) := by
    simp only [runScript]
    rw [hfull]
  refine ⟨by rw [hscript], ?_, ?_⟩
  · rw [hscript]
    show s'.file1 = none
    rw [hf1, opsEnd_file1]
    rfl
  · rw [hscript]
    show s'.file2 = none
    rw [hf2, opsEnd_file2]
    rfl

lemma countP_trialsFwd_same (k : ℕ) : ∀ (is : List ℕ) (t0 : ℕ),
    (trialsFwd k t0 is).countP (isOpCallOf k) = is.length := by
  intro is
  induction is with
  | nil => intro t0; rfl
  | cons i is ih =>
    intro t0
    simp [trialsFwd, List.countP_cons, isOpCallOf, ih (t0 + 2)]

lemma countP_trialsFwd_other (k k' : ℕ) (hne : k' ≠ k) : ∀ (is : List ℕ) (t0 : ℕ),
    (trialsFwd k' t0 is).countP (isOpCallOf k) = 0 := by
  intro is
  induction is with
  | nil => intro t0; rfl
  | cons i is ih =>
    intro t0
    have hb : (k' == k) = false := by simp [hne]
    simp [trialsFwd, List.countP_cons, isOpCallOf, hb, ih (t0 + 2)]

lemma countP_opsFwd (k : ℕ) : ∀ (ks : List ℕ) (t0 : ℕ),
    (opsFwd ks t0).countP (isOpCallOf k) = n * ks.count k := by
  intro ks
  induction ks with
  | nil => intro t0; simp [opsFwd]
  | cons k' ks ih =>
    intro t0
    simp only [opsFwd, List.countP_append]
    rw [ih (t0 + 2 * n)]
    by_cases h : k' = k
    · subst h
      rw [countP_trialsFwd_same]
      simp [List.count_cons, List.length_range]
      ring
    · rw [countP_trialsFwd_other k k' h]
      have hb : (k == k') = false := by simp [Ne.symm h]
      simp only [List.count_cons, hb, if_false, Nat.zero_add]
      simp
      exact Or.inl h

lemma count_range_eight (k : ℕ) (hk : k < 8) : (List.range 8).count k = 1 := by
  interval_cases k <;> rfl

lemma countP_successFwd_op (k : ℕ) (hk : k < 8) :
    successFwd.countP (isOpCallOf k) = n := by
  simp only [successFwd, List.countP_append]
  rw [countP_opsFwd k (List.range 8) 0, count_range_eight k hk]
  simp [setupFwd, List.countP_cons, isOpCallOf]

lemma triple_infix_trialsFwd (k : ℕ) :
    ∀ (m i0 t0 i : ℕ), i0 ≤ i → i < i0 + m →
      List.IsInfix
        [Ev.timeCall PyClock.time_time (t0 + 2 * (i - i0)), Ev.opCall k i,
         Ev.timeCall PyClock.time_time (t0 + 2 * (i - i0) + 1)]
        (trialsFwd k t0 (List.range' i0 m)) := by
  intro m
  induction m with
  | zero => intro i0 t0 i h1 h2; omega
  | succ m ih =>
    intro i0 t0 i h1 h2
    rw [List.range'_succ]
    by_cases hi : i = i0
    · subst hi
      refine ⟨[], trialsFwd k (t0 + 2) (List.range' (i + 1) m), ?_⟩
      simp [trialsFwd, Nat.sub_self]
    · have h3 := ih (i0 + 1) (t0 + 2) i (by omega) (by omega)
      have e1 : t0 + 2 + 2 * (i - (i0 + 1)) = t0 + 2 * (i - i0) := by omega
      rw [e1] at h3
      obtain ⟨s, t, hst⟩ := h3
      exact ⟨Ev.timeCall PyClock.time_time t0 :: Ev.opCall k i0 ::
               Ev.timeCall PyClock.time_time (t0 + 1) :: s, t,
             by simp [trialsFwd, hst]⟩

lemma trialsFwd_infix_opsFwd (k : ℕ) :
    ∀ (m k0 t0 : ℕ), k0 ≤ k → k < k0 + m →
      List.IsInfix (trialsFwd k (t0 + 2 * n * (k - k0)) (List.range n))
        (opsFwd (List.range' k0 m) t0) := by
  intro m
  induction m with
  | zero => intro k0 t0 h1 h2; omega
  | succ m ih =>
    intro k0 t0 h1 h2
    rw [List.range'_succ]
    by_cases hk0 : k = k0
    · subst hk0
      refine ⟨[], opsFwd (List.range' (k + 1) m) (t0 + 2 * n), ?_⟩
      simp [opsFwd, Nat.sub_self]
    · have h3 := ih (k0 + 1) (t0 + 2 * n) (by omega) (by omega)
      have e1 : t0 + 2 * n + 2 * n * (k - (k0 + 1)) = t0 + 2 * n * (k - k0) := by
        have hj : k - k0 = (k - (k0 + 1)) + 1 := by omega
        rw [hj, Nat.mul_add, Nat.mul_one]
        ring
      rw [e1] at h3
      obtain ⟨s, t, hst⟩ := h3
      exact ⟨trialsFwd k0 t0 (List.range n) ++ s, t,
             by simp [opsFwd, ← hst, List.append_assoc]⟩

lemma infix_successFwd_of_infix_ops (l : List Ev)
    (h : List.IsInfix l (opsFwd (List.range 8) 0)) :
    List.IsInfix l successFwd := by
  obtain ⟨s, t, hst⟩ := h
  exact ⟨setupFwd ++ s, t ++ [Ev.fileWrite 0, Ev.fileWrite 1],
         by simp [successFwd, ← hst, List.append_assoc]⟩

lemma takeWhile_append_of_all (p : Ev → Bool) (l₁ l₂ : List Ev)
    (h : ∀ a ∈ l₁, p a = true) :
    (l₁ ++ l₂).takeWhile p = l₁ ++ l₂.takeWhile p := by
  induction l₁ with
  | nil => simp
  | cons a l ih =>
    simp only [List.cons_append, List.takeWhile_cons, h a (by simp)]
    simp [ih (fun b hb => h b (by simp [hb]))]

lemma countP_beq_zero_of_loopish (es : List Ev) (hall : ∀ e ∈ es, loopish e = true)
    (x : Ev) (hx : loopish x = false) :
    es.countP (fun e => e == x) = 0 := by
  apply List.countP_eq_zero.mpr
  intro a ha hbeq
  have h1 : a = x := by simpa using hbeq
  have h2 := hall a ha
  rw [h1, hx] at h2
  cases h2

lemma setup_state (lib : EWSLib) (rng : RNG) :
    (ewstools_setup lib rng).state = lib.simulate_ricker rng tmax Fparam := rfl

lemma setup_smoothing (lib : EWSLib) (rng : RNG) :
    (ewstools_setup lib rng).smoothing
      = lib.lowess lowessSpan (lib.simulate_ricker rng tmax Fparam) := rfl

lemma setup_residuals (lib : EWSLib) (rng : RNG) :
    (ewstools_setup lib rng).residuals
      = List.zipWith (fun a b => a - b) (lib.simulate_ricker rng tmax Fparam)
          (lib.lowess lowessSpan (lib.simulate_ricker rng tmax Fparam)) := rfl

lemma zipWith_get?_sub (f : ℚ → ℚ → ℚ) :
    ∀ (l1 l2 : List ℚ) (j : ℕ), j < l1.length → j < l2.length →
      (List.zipWith f l1 l2).get? j = some (f (l1.getD j 0) (l2.getD j 0)) := by
  intro l1
  induction l1 with
  | nil => intro l2 j h1 _; simp at h1
  | cons a l1 ih =>
    intro l2 j h1 h2
    cases l2 with
    | nil => simp at h2
    | cons b l2 =>
      cases j with
      | zero => simp
      | succ j =>
        simpa using ih l2 j (by simpa using h1) (by simpa using h2)

lemma le_listMin_of_forall (l : List Time) (c : Time) (hne : l ≠ [])
    (h : ∀ a ∈ l, c ≤ a) : c ≤ listMin l := by
  cases l with
  | nil => exact absurd rfl hne
  | cons x xs =>
    exact le_foldl_min xs x c (h x (by simp)) (fun a ha => h a (by simp [ha]))

lemma listMin_samples_nonneg (env : Env)
    (hmono : ∀ j : ℕ, env.clock j ≤ env.clock (j + 1)) (k : ℕ) :
    0 ≤ listMin (samples env k) := by
  apply listMin_nonneg
  intro a ha
  simp only [samples, List.mem_map] at ha
  obtain ⟨i, _, rfl⟩ := ha
  simp only [sample]
  have h := hmono (trialBase k + 2 * i)
  linarith

lemma envW_ok : (runScript envW).2 = none := by
  apply (runScript_none_iff envW).mpr
  exact ⟨fun k _ i _ => rfl, rfl, rfl⟩

/-- C9: the modelled process exit status (CPython exits 0 when the script
runs to completion and 1 on an uncaught exception) is 0 exactly when every
timed call of the eight operations and both file writes succeed; success
implies both output files were written, and any failure yields the nonzero
code 1. -/
theorem C9_exit_code (env : Env) :
    (exitCode (runScript env) = 0 ↔
      ((∀ k < 8, ∀ i < n, env.opExc k i = none) ∧
        env.writeExc 0 = none ∧ env.writeExc 1 = none)) ∧
    (exitCode (runScript env) = 0 →
      ((runScript env).1.file1).isSome = true ∧
        ((runScript env).1.file2).isSome = true) ∧
    (exitCode (runScript env) ≠ 0 → exitCode (runScript env) = 1) := by
  have hiff : exitCode (runScript env) = 0 ↔ (runScript env).2 = none := by
    cases h : (runScript env).2 with
    | none => simp [exitCode, h]
    | some f => simp [exitCode, h]
  refine ⟨?_, ?_, ?_⟩
  · rw [hiff, runScript_none_iff]
    constructor
    · intro h
      exact ⟨fun k hk i hi => h.1 k (List.mem_range.mpr hk) i (List.mem_range.mpr hi),
             h.2.1, h.2.2⟩
    · intro h
      exact ⟨fun k hk i hi => h.1 k (List.mem_range.mp hk) i (List.mem_range.mp hi),
             h.2.1, h.2.2⟩
  · intro h0
    have hok := hiff.mp h0
    rw [run_ok_file1 env hok, run_ok_file2 env hok]
    exact ⟨rfl, rfl⟩
  · intro hne
    cases h : (runScript env).2 with
    | none => exact absurd (hiff.mpr h) hne
    | some f => simp [exitCode, h]

/-- C9 witness: in the benign concrete environment the exit code is 0 and
both files are written. -/
theorem C9_exit_code_witness :
    exitCode (runScript envW) = 0 ∧ ((runScript envW).1.file1).isSome = true := by
  have h := C9_exit_code envW
  have h0 : exitCode (runScript envW) = 0 :=
    (h.1).mpr ⟨fun k _ i _ => rfl, rfl, rfl⟩
  exact ⟨h0, (h.2.1 h0).1⟩

/-- C7: with the library implementation held fixed, the generated series is
the same in any two runs - it does not depend on the clock, on the exception
behaviour, or on the interpreter's initial RNG state - and it equals the
library's Ricker simulation at the seeded RNG state, i.e. it is a
deterministic function of the seed and the parameters tmax and F. -/
theorem C7_generator_deterministic (env1 env2 : Env) (hlib : env1.lib = env2.lib) :
    (runScript env1).1.ctx.series = (runScript env2).1.ctx.series ∧
    (runScript env1).1.ctx.series = env1.lib.simulate_ricker 0 tmax Fparam := by
  have h1 := runScript_ctx env1
  have h2 := runScript_ctx env2
  constructor
  · rw [h1, h2, hlib]
    rfl
  · rw [h1]
    rfl

/-- C7 witness: instantiated at the benign environment against itself. -/
theorem C7_generator_deterministic_witness :
    envW.lib = envW.lib ∧
      (runScript envW).1.ctx.series = envW.lib.simulate_ricker 0 tmax Fparam :=
  ⟨rfl, (C7_generator_deterministic envW envW rfl).2⟩

/-- C5: in every run, each of the two preprocessing events (detrend and
compute_spectrum) occurs exactly once, and both occur in the prefix of the
trace that precedes the first timestamp event, hence before the timed region
begins and outside every before/after timestamp pair. -/
theorem C5_preprocessing_once_before_timing (env : Env) :
    (evTrace (runScript env)).countP (fun e => e == Ev.detrendCall) = 1 ∧
    (evTrace (runScript env)).countP (fun e => e == Ev.spectrumCall) = 1 ∧
    ((evTrace (runScript env)).takeWhile (fun e => !(isTimeCallB e))).countP
        (fun e => e == Ev.detrendCall) = 1 ∧
    ((evTrace (runScript env)).takeWhile (fun e => !(isTimeCallB e))).countP
        (fun e => e == Ev.spectrumCall) = 1 := by
  obtain ⟨es, htr, hall⟩ := evTrace_decomp env
  rw [htr]
  have hz1 := countP_beq_zero_of_loopish es hall Ev.detrendCall rfl
  have hz2 := countP_beq_zero_of_loopish es hall Ev.spectrumCall rfl
  have htw : (setupFwd ++ es).takeWhile (fun e => !(isTimeCallB e))
      = setupFwd ++ es.takeWhile (fun e => !(isTimeCallB e)) :=
    takeWhile_append_of_all _ setupFwd es (by decide)
  have hzt1 : (es.takeWhile (fun e => !(isTimeCallB e))).countP
      (fun e => e == Ev.detrendCall) = 0 :=
    Nat.le_zero.mp (le_trans ((List.takeWhile_sublist _).countP_le _) (le_of_eq hz1))
  have hzt2 : (es.takeWhile (fun e => !(isTimeCallB e))).countP
      (fun e => e == Ev.spectrumCall) = 0 :=
    Nat.le_zero.mp (le_trans ((List.takeWhile_sublist _).countP_le _) (le_of_eq hz2))
  refine ⟨?_, ?_, ?_, ?_⟩
  · rw [List.countP_append, hz1]; decide
  · rw [List.countP_append, hz2]; decide
  · rw [htw, List.countP_append, hzt1]; decide
  · rw [htw, List.countP_append, hzt2]; decide

/-- C3 (amended): every timestamp event of every run is taken with
`time.time`, and `time.time` is not a monotonic clock - the harness times
with the adjustable wall clock throughout. -/
theorem C3_wall_clock_only (env : Env) :
    (evTrace (runScript env)).all wallOnly = true ∧
    PyClock.isMonotonicClock PyClock.time_time = false := by
  constructor
  · apply List.all_eq_true.mpr
    obtain ⟨es, htr, hall⟩ := evTrace_decomp env
    rw [htr]
    intro e he
    rcases List.mem_append.mp he with h1 | h1
    · have hsetup : ∀ x ∈ setupFwd, wallOnly x = true := by decide
      exact hsetup e h1
    · have hl := hall e h1
      cases e <;> simp_all [loopish, wallOnly]
  · rfl

lemma countP_time_trialsFwd (k : ℕ) : ∀ (is : List ℕ) (t0 : ℕ),
    (trialsFwd k t0 is).countP isTimeCallB = 2 * is.length := by
  intro is
  induction is with
  | nil => intro t0; rfl
  | cons i is ih =>
    intro t0
    simp only [trialsFwd, List.countP_cons, ih (t0 + 2), List.length_cons]
    simp [isTimeCallB]
    ring

lemma countP_time_opsFwd : ∀ (ks : List ℕ) (t0 : ℕ),
    (opsFwd ks t0).countP isTimeCallB = 2 * n * ks.length := by
  intro ks
  induction ks with
  | nil => intro t0; simp [opsFwd]
  | cons k ks ih =>
    intro t0
    simp only [opsFwd, List.countP_append, countP_time_trialsFwd k (List.range n) t0,
               ih (t0 + 2 * n), List.length_cons, List.length_range]
    ring

lemma countP_mono_trialsFwd (k : ℕ) : ∀ (is : List ℕ) (t0 : ℕ),
    (trialsFwd k t0 is).countP isMonoTimeCall = 0 := by
  intro is
  induction is with
  | nil => intro t0; rfl
  | cons i is ih =>
    intro t0
    simp only [trialsFwd, List.countP_cons, ih (t0 + 2)]
    simp [isMonoTimeCall, PyClock.isMonotonicClock]

lemma countP_mono_opsFwd : ∀ (ks : List ℕ) (t0 : ℕ),
    (opsFwd ks t0).countP isMonoTimeCall = 0 := by
  intro ks
  induction ks with
  | nil => intro t0; simp [opsFwd]
  | cons k ks ih =>
    intro t0
    simp [opsFwd, List.countP_append, countP_mono_trialsFwd k (List.range n) t0,
          ih (t0 + 2 * n)]

/-- C3 (counterexample): in the concrete benign run all 1600 timestamp events
use `time.time` and not one uses a monotonic primitive, refuting the claim
that every elapsed-time measurement uses a monotonic high-resolution clock. -/
theorem C3_counterexample :
    (evTrace (runScript envW)).countP isTimeCallB = 1600 ∧
    (evTrace (runScript envW)).countP isMonoTimeCall = 0 := by
  rw [run_ok_trace envW envW_ok]
  constructor
  · simp only [successFwd, List.countP_append]
    rw [countP_time_opsFwd (List.range 8) 0]
    decide
  · simp only [successFwd, List.countP_append]
    rw [countP_mono_opsFwd (List.range 8) 0]
    decide

lemma envNeg_ok : (runScript envNeg).2 = none := by
  apply (runScript_none_iff envNeg).mpr
  exact ⟨fun k _ i _ => rfl, rfl, rfl⟩

/-- C4 (counterexample): a completed run over a clock that steps backwards
once reports the negative timing -1 for the first operation, refuting the
claim that every reported timing is nonnegative in every run. -/
theorem C4_counterexample :
    (runScript envNeg).2 = none ∧
    (runScript envNeg).1.t_minruntime.get? 0 = some (-1 : ℚ) ∧
    ¬ ((0 : ℚ) ≤ (-1 : ℚ)) := by
  refine ⟨envNeg_ok, ?_, by norm_num⟩
  rw [run_ok_tmin_get? envNeg envNeg_ok 0, if_pos (by omega)]
  congr 1
  have hv : sample envNeg 0 0 = -1 := by
    simp [sample, trialBase, envNeg]
  have hmem : sample envNeg 0 0 ∈ samples envNeg 0 :=
    List.mem_map_of_mem _ (List.mem_range.mpr (by norm_num [n]))
  have hub : listMin (samples envNeg 0) ≤ -1 := hv ▸ listMin_le _ _ hmem
  have hlb : (-1 : ℚ) ≤ listMin (samples envNeg 0) := by
    apply le_listMin_of_forall
    · simp [samples, n]
    · intro a ha
      simp only [samples, List.mem_map] at ha
      obtain ⟨i, _, rfl⟩ := ha
      simp only [sample, trialBase, Nat.mul_zero, Nat.zero_add, envNeg]
      split_ifs <;> norm_num
  exact le_antisymm hub hlb

/-- C4 (amended): provided the wall-clock readings never decrease during the
run (which a monotonic clock would guarantee but `time.time` does not),
every value in the timing output and every reported minimum is nonnegative. -/
theorem C4_nonneg_if_monotone (env : Env)
    (hmono : ∀ j : ℕ, env.clock j ≤ env.clock (j + 1))
    (hok : (runScript env).2 = none) :
    (∀ x ∈ ((runScript env).1.file2.getD []), 0 ≤ x) ∧
    (∀ k, k < 8 → ∀ x : Time,
      (runScript env).1.t_minruntime.get? k = some x → 0 ≤ x) := by
  have hmain : ∀ k, k < 8 → ∀ x : Time,
      (runScript env).1.t_minruntime.get? k = some x → 0 ≤ x := by
    intro k hk x hx
    rw [run_ok_tmin_get? env hok k, if_pos hk] at hx
    have hx' := Option.some.inj hx
    rw [← hx']
    exact listMin_samples_nonneg env hmono k
  constructor
  · intro x hxmem
    rw [run_ok_file2 env hok] at hxmem
    simp only [Option.getD_some] at hxmem
    obtain ⟨j, hj⟩ := List.mem_iff_get?.mp hxmem
    have hjlt : j < 8 := by
      by_contra hge
      rw [List.get?_eq_none.mpr (by rw [run_ok_tmin_length env hok]; omega)] at hj
      cases hj
    exact hmain j hjlt x hj
  · exact hmain

/-- C4 witness: the benign environment has a nondecreasing clock, its run
completes, and all its reported timings are nonnegative. -/
theorem C4_nonneg_if_monotone_witness :
    (∀ j : ℕ, envW.clock j ≤ envW.clock (j + 1)) ∧
    (runScript envW).2 = none ∧
    (∀ x ∈ ((runScript envW).1.file2.getD []), 0 ≤ x) := by
  have hmono : ∀ j : ℕ, envW.clock j ≤ envW.clock (j + 1) := by
    intro j
    show ((j : ℚ)) ≤ (((j + 1 : ℕ)) : ℚ)
    exact_mod_cast Nat.le_succ j
  exact ⟨hmono, envW_ok, (C4_nonneg_if_monotone envW hmono envW_ok).1⟩

/-- C1: on every completed run, each of the eight operations is timed over
exactly n = 100 trials (the trace holds exactly 100 timed-call events of
operation k, each bracketed by its own before/after timestamp pair), the
scalar reported for operation k is the minimum of that operation's 100
elapsed samples, and it is at most every individual sample. -/
theorem C1_variant_b_minimum (env : Env) (hok : (runScript env).2 = none) :
    n = 100 ∧
    ∀ k, k < 8 →
      ((evTrace (runScript env)).countP (isOpCallOf k) = n ∧
       (∀ i, i < n → List.IsInfix
          [Ev.timeCall PyClock.time_time (trialBase k + 2 * i), Ev.opCall k i,
           Ev.timeCall PyClock.time_time (trialBase k + 2 * i + 1)]
          (evTrace (runScript env))) ∧
       (runScript env).1.t_minruntime.get? k = some (listMin (samples env k)) ∧
       (∀ i, i < n → listMin (samples env k) ≤ sample env k i)) := by
  refine ⟨rfl, ?_⟩
  intro k hk
  refine ⟨?_, ?_, ?_, ?_⟩
  · rw [run_ok_trace env hok]
    exact countP_successFwd_op k hk
  · intro i hi
    rw [run_ok_trace env hok]
    apply infix_successFwd_of_infix_ops
    have h2 := trialsFwd_infix_opsFwd k 8 0 0 (by omega) (by omega)
    have e2 : 0 + 2 * n * (k - 0) = trialBase k := by
      simp [trialBase]
    rw [e2, ← List.range_eq_range' 8] at h2
    have h1 := triple_infix_trialsFwd k n 0 (trialBase k) i (by omega) (by omega)
    have e1 : 2 * (i - 0) = 2 * i := by simp
    rw [e1, ← List.range_eq_range' n] at h1
    exact h1.trans h2
  · rw [run_ok_tmin_get? env hok k, if_pos hk]
  · intro i hi
    exact listMin_le _ _ (List.mem_map_of_mem _ (List.mem_range.mpr hi))

/-- C1 witness: the benign run completes and the reported value of the first
operation is the minimum of its samples, bounded by its first sample. -/
theorem C1_variant_b_minimum_witness :
    (runScript envW).2 = none ∧
    (runScript envW).1.t_minruntime.get? 0 = some (listMin (samples envW 0)) ∧
    listMin (samples envW 0) ≤ sample envW 0 0 := by
  have h := C1_variant_b_minimum envW envW_ok
  exact ⟨envW_ok, (h.2 0 (by omega)).2.2.1, (h.2 0 (by omega)).2.2.2 0 (by norm_num [n])⟩

/-- C2: on every completed run the timing output file holds exactly 8 values,
and the value in row k is the reported (minimum) timing of the k-th
operation, where the k-th timed loop invokes exactly the k-th operation of
the declared order [rolling-variance, coefficient-of-variation, skewness,
kurtosis, lag-1 autocorrelation, spectral-max, Kendall-tau,
block-bootstrap]. -/
theorem C2_timing_rows (env : Env) (hok : (runScript env).2 = none) :
    ∃ L : List Time, (runScript env).1.file2 = some L ∧ L.length = 8 ∧
      (∀ k, k < 8 → L.get? k = some (listMin (samples env k))) ∧
      (∀ k, k < 8 → opOrder.get? k = some (opAt k)) := by
  refine ⟨(runScript env).1.t_minruntime, run_ok_file2 env hok,
          run_ok_tmin_length env hok, ?_, ?_⟩
  · intro k hk
    rw [run_ok_tmin_get? env hok k, if_pos hk]
  · intro k hk
    interval_cases k <;> rfl

/-- C2 witness: instantiated at the benign environment. -/
theorem C2_timing_rows_witness :
    (runScript envW).2 = none ∧
    ∃ L : List Time, (runScript envW).1.file2 = some L ∧ L.length = 8 :=
  ⟨envW_ok, (C2_timing_rows envW envW_ok).imp
    (fun _ h => ⟨h.1, h.2.1⟩)⟩

/-- C10: on every completed run and for every operation index k, the buffer
t_elapsed right after loop k holds exactly operation k's 100 samples (every
entry was overwritten by loop k), the reported value t_minruntime[k] is the
minimum over exactly those samples, and it is unchanged if the environment is
replaced by any other completing environment with the same library that
agrees with it on the clock readings of operation k's own window - i.e. it
is independent of the samples of earlier operations. -/
theorem C10_buffer_overwrite (env : Env) (hok : (runScript env).2 = none) :
    ∀ k, k < 8 →
      ((runOps env (List.range (k + 1)) (initSt env)).1.t_elapsed = samples env k) ∧
      ((runScript env).1.t_minruntime.get? k = some (listMin (samples env k))) ∧
      (∀ env' : Env, (runScript env').2 = none →
        (∀ t, trialBase k ≤ t → t < trialBase (k + 1) → env'.clock t = env.clock t) →
        (runScript env').1.t_minruntime.get? k = (runScript env).1.t_minruntime.get? k) := by
  intro k hk
  have hcleanAll := (run_ok_clean env hok).1
  refine ⟨?_, ?_, ?_⟩
  · have hclean : ∀ k' ∈ List.range (k + 1), ∀ i ∈ List.range n,
        env.opExc k' i = none := by
      intro k' hk' i hi
      have hk'8 : k' ∈ List.range 8 := by
        simp only [List.mem_range] at hk' ⊢
        omega
      exact hcleanAll k' hk'8 i hi
    rw [runOps_clean env (List.range (k + 1)) (initSt env) hclean]
    show (opsEnd env (List.range (k + 1)) (initSt env)).t_elapsed = _
    rw [List.range_eq_range' (k + 1)]
    rw [opsEnd_elapsed_last env k 0 (initSt env) (initSt_elapsed_length env)]
    rw [samples_eq_window]
    have ht : (initSt env).tick = 0 := rfl
    rw [ht]
    have e1 : 0 + 2 * n * k = trialBase k := by simp [trialBase]
    rw [e1]
  · rw [run_ok_tmin_get? env hok k, if_pos hk]
  · intro env' hok' hagree
    rw [run_ok_tmin_get? env hok k, run_ok_tmin_get? env' hok' k,
        if_pos hk, if_pos hk]
    have htb : trialBase (k + 1) = trialBase k + 2 * n := by
      simp only [trialBase]
      ring
    have hsamp : samples env' k = samples env k := by
      apply List.map_congr_left
      intro i hi
      have hi' : i < n := List.mem_range.mp hi
      simp only [sample]
      rw [hagree _ (by omega) (by rw [htb]; omega),
          hagree _ (by omega) (by rw [htb]; omega)]
    rw [hsamp]

/-- C10 witness: instantiated at the benign environment with k = 0 and the
environment itself as the agreeing environment. -/
theorem C10_buffer_overwrite_witness :
    (runScript envW).2 = none ∧
    (runOps envW (List.range 1) (initSt envW)).1.t_elapsed = samples envW 0 :=
  ⟨envW_ok, ((C10_buffer_overwrite envW envW_ok) 0 (by omega)).1⟩

/-- C8: on every completed run, given the library contract (the simulator
returns tmax values and the smoother is length-preserving), the residual
output file holds exactly tmax = 1000 rows and row j is state[j] minus
smoothing[j]. -/
theorem C8_residual_file (env : Env) (hok : (runScript env).2 = none)
    (hgen : ∀ rng : RNG, (env.lib.simulate_ricker rng tmax Fparam).length = tmax)
    (hlow : ∀ (sp : ℚ) (xs : List ℚ), (env.lib.lowess sp xs).length = xs.length) :
    ∃ r : List ℚ, (runScript env).1.file1 = some r ∧ r.length = tmax ∧
      ∀ j, j < tmax → r.get? j =
        some ((runScript env).1.ctx.state.getD j 0 -
              (runScript env).1.ctx.smoothing.getD j 0) := by
  have hctx := runScript_ctx env
  have hslen : (env.lib.simulate_ricker (npSeed env.rng0 0) tmax Fparam).length = tmax :=
    hgen (npSeed env.rng0 0)
  have hmlen : (env.lib.lowess lowessSpan
      (env.lib.simulate_ricker (npSeed env.rng0 0) tmax Fparam)).length = tmax := by
    rw [hlow]
    exact hslen
  refine ⟨(runScript env).1.ctx.residuals, run_ok_file1 env hok, ?_, ?_⟩
  · rw [hctx, setup_residuals, List.length_zipWith, hslen, hmlen]
    simp
  · intro j hj
    rw [hctx, setup_residuals, setup_state, setup_smoothing]
    exact zipWith_get?_sub _ _ _ j (by rw [hslen]; omega) (by rw [hmlen]; omega)

set_option maxRecDepth 8000 in
/-- C8 witness: instantiated at the benign environment, whose trivial library
satisfies the contract. -/
theorem C8_residual_file_witness :
    (runScript envW).2 = none ∧
    (∀ rng : RNG, (envW.lib.simulate_ricker rng tmax Fparam).length = tmax) ∧
    (∀ (sp : ℚ) (xs : List ℚ), (envW.lib.lowess sp xs).length = xs.length) ∧
    ∃ r : List ℚ, (runScript envW).1.file1 = some r ∧ r.length = tmax := by
  have hLen : ∀ t : ℕ, (List.map (fun j : ℕ => (j : ℚ)) (List.range t)).length = t := by
    intro t
    rw [List.length_map, List.length_range]
  have hgen : ∀ rng : RNG, (envW.lib.simulate_ricker rng tmax Fparam).length = tmax := by
    intro rng
    have he : envW.lib.simulate_ricker rng tmax Fparam
        = List.map (fun j : ℕ => (j : ℚ)) (List.range tmax) := rfl
    rw [he]
    exact hLen tmax
  have hlow : ∀ (sp : ℚ) (xs : List ℚ), (envW.lib.lowess sp xs).length = xs.length :=
    fun _ _ => rfl
  obtain ⟨r, h1, h2, _⟩ := C8_residual_file envW envW_ok hgen hlow
  exact ⟨envW_ok, hgen, hlow, r, h1, h2⟩

/-- C6 (amended): if the first failure of the run is operation k raising at
trial i, the run aborts with the raised exception at operation k's call line
(which identifies the operation, the call lines being injective), and neither
output file is written; the error does not record the trial index. -/
theorem C6_abort_no_output (env : Env) (k i e : ℕ) (hk : k < 8) (hi : i < n)
    (hprev : ∀ k' < k, ∀ i' < n, env.opExc k' i' = none)
    (hrow : ∀ i' < i, env.opExc k i' = none)
    (hfail : env.opExc k i = some e) :
    (runScript env).2 = some { exc := e, line := opCallLine k } ∧
      (runScript env).1.file1 = none ∧ (runScript env).1.file2 = none ∧
      (∀ k', k' < 8 → opCallLine k' = opCallLine k → k' = k) := by
  obtain ⟨h1, h2, h3⟩ := runScript_abort env k i e hk hi hprev hrow hfail
  refine ⟨h1, h2, h3, ?_⟩
  intro k' _ hline
  simp only [opCallLine] at hline
  omega

lemma envFail_abort (i0 : ℕ) (hi0 : i0 < n) :
    (runScript (envFail i0)).2 = some { exc := 7, line := opCallLine 3 } := by
  have h := runScript_abort (envFail i0) 3 i0 7 (by omega) hi0
      (fun k' hk' i' _ => by
        simp only [envFail]
        rw [if_neg (by omega)])
      (fun i' hi' => by
        simp only [envFail]
        rw [if_neg (by omega)])
      (by simp [envFail])
  exact h.1

/-- C6 (counterexample): whether operation 3 fails at trial 5 or at trial 9,
the fatal outcome of the run is the same value, so the fatal error cannot
identify the trial index at which the operation raised - refuting the part of
the claim that says the error identifies trial index i. -/
theorem C6_counterexample :
    (runScript (envFail 5)).2 = (runScript (envFail 9)).2 ∧
    (runScript (envFail 5)).2 = some { exc := 7, line := opCallLine 3 } ∧
    (5 : ℕ) ≠ 9 := by
  have h5 := envFail_abort 5 (by norm_num [n])
  have h9 := envFail_abort 9 (by norm_num [n])
  exact ⟨h5.trans h9.symm, h5, by omega⟩

/-- C6 witness: with operation 3 failing at trial 5, the run aborts at
operation 3's call line and writes no output file. -/
theorem C6_abort_no_output_witness :
    (envFail 5).opExc 3 5 = some 7 ∧
    (runScript (envFail 5)).2 = some { exc := 7, line := opCallLine 3 } ∧
    (runScript (envFail 5)).1.file1 = none ∧
    (runScript (envFail 5)).1.file2 = none := by
  have h := C6_abort_no_output (envFail 5) 3 5 7 (by omega) (by norm_num [n])
      (fun k' hk' i' _ => by
        simp only [envFail]
        rw [if_neg (by omega)])
      (fun i' hi' => by
        simp only [envFail]
        rw [if_neg (by omega)])
      (by simp [envFail])
  exact ⟨by simp [envFail], h.1, h.2.1, h.2.2.1⟩
